import Mathlib

/-!
Verification development for the thermify measurement pipeline
(`src/processing.py`, class `InstrumentApp`).

Modelling conventions:
* machine floats are modelled as exact rationals (`ℚ`);
* numpy arrays become `List ℚ`; fallible operations return `Option`;
* the control flow of `run_full_cycle_logic` and `start_full_cycle_thread`
  is embedded as explicit state-passing over small structures, recording
  the externally visible effects (instrument commands, warning dialogs).
-/

namespace Thermify

/-- Environment of one run of `run_full_cycle_logic`: whether a Keithley
handle is connected (`self.keith`), and whether each fallible step succeeds
(`_configure_koolertron` returning True, `_capture_averaged` returning
data for the BASE and for the READ phase). -/
structure CycleEnv where
  keithConnected : Bool
  configOk : Bool
  baseOk : Bool
  readOk : Bool

/-- Embeds `_keithley_set_output(on)`: when a Keithley handle exists the
command (`true` = `:OUTP ON`, `false` = `:OUTP OFF`) is written to the
instrument and appended to the issued-command trace; with no handle the
method returns without issuing anything. -/
def keithley_set_output (e : CycleEnv) (issued : List Bool) (b : Bool) : List Bool :=
  if e.keithConnected then issued ++ [b] else issued

/-- Embeds the Keithley-command trace of `run_full_cycle_logic`
(processing.py lines 267-303).  The body is a single `try` block:
(1) configure the generator, raising on failure; (2) output OFF, capture
BASE, raising if it yielded no data; (3) output ON, capture READ, raising
if it yielded no data; (4) output OFF.  A raise jumps to the `except`
handler, whose `finally` clause only re-enables the run button — it issues
no further Keithley command.  The returned list is the sequence of
`setOutput` arguments actually issued. -/
def run_full_cycle_keith (e : CycleEnv) : List Bool :=
  if e.configOk then
    let t1 := keithley_set_output e [] false
    if e.baseOk then
      let t2 := keithley_set_output e t1 true
      if e.readOk then
        keithley_set_output e t2 false
      else t2
    else t1
  else []

/-- Warning dialogs `start_full_cycle_thread` can pop up
(`messagebox.showwarning`). -/
inductive Warn where
  | missingReference
  | notConnected
deriving DecidableEq, Repr

/-- Observable state of the run surface: whether a reference CSV is loaded
(`self.reference_data is not None`), whether scope and generator handles
exist, whether the RUN button is enabled, whether a cycle worker thread is
in flight, and the warnings shown so far. -/
structure UiState where
  refLoaded : Bool
  connected : Bool
  btnEnabled : Bool
  cycleRunning : Bool
  warnings : List Warn
deriving DecidableEq, Repr

/-- Embeds `start_full_cycle_thread` (processing.py lines 255-264): warn
and return if no reference is loaded; warn and return if scope or
generator is missing; otherwise disable the run button and start the
worker thread. -/
def start_full_cycle_thread (s : UiState) : UiState :=
  if !s.refLoaded then { s with warnings := s.warnings ++ [Warn.missingReference] }
  else if !s.connected then { s with warnings := s.warnings ++ [Warn.notConnected] }
  else { s with btnEnabled := false, cycleRunning := true }

/-- A click on the RUN button: a disabled `ttk.Button` (state="disabled",
set for the duration of a cycle) does not fire its command, so the click
is a no-op; an enabled button invokes `start_full_cycle_thread`. -/
def clickRunButton (s : UiState) : UiState :=
  if s.btnEnabled then start_full_cycle_thread s else s

/-- Common truncation length `n = min(len(base), len(read), len(reference))`
computed at the top of `process_and_display` (processing.py line 392). -/
def alignLen (base read ref : List ℚ) : ℕ :=
  min base.length (min read.length ref.length)

/-- Embeds `np.mean`: sum divided by length (division by zero only arises
for the empty list, where numpy yields nan with a warning; in ℚ the value
is 0 and, as in the source, it is never used on a path that succeeds). -/
def listMean (xs : List ℚ) : ℚ := xs.sum / (xs.length : ℚ)

/-- Embeds the denominator guard of `process_and_display` (lines 407-409):
`denom = 0.0045 * REF_AVG; if denom == 0: denom = 1e-9`. -/
def denomOf (r : ℚ) : ℚ :=
  if 0.0045 * r = 0 then 1e-9 else 0.0045 * r

/-- Embeds the normalizer of `process_and_display` (lines 392-411): crop
base, read and reference to the common minimum length, take `REF_AVG` as
the mean of the cropped reference, and form
`(read - base - REF_AVG) / denom` pointwise. -/
def finalValues (base read ref : List ℚ) : List ℚ :=
  let n := alignLen base read ref
  let rAvg := listMean (ref.take n)
  let d := denomOf rAvg
  (List.range n).map
    (fun i => ((read.take n).getD i 0 - (base.take n).getD i 0 - rAvg) / d)

/-- The fixed smoothing window `window = 256` of `process_and_display`
(line 415). -/
def window : ℕ := 256

/-- Embeds `np.convolve(final_values, np.ones(window)/window, mode="valid")`
for an input longer than the window: output `i` is the mean of the window
of samples starting at `i`; the output has `len - window + 1` entries.
Only ever used under the guard `window < len`, as in the source. -/
def movingAverage (xs : List ℚ) : List ℚ :=
  (List.range (xs.length - window + 1)).map
    (fun i => ((xs.drop i).take window).sum / (window : ℚ))

/-- Embeds the smoothing branch of `process_and_display` (lines 415-423):
convolve when `len(final_values) > window`, otherwise keep the unsmoothed
signal verbatim. -/
def rollingOf (xs : List ℚ) : List ℚ :=
  if window < xs.length then movingAverage xs else xs

/-- Embeds the matching time-axis choice of the same branch:
`x_vals = time_c[:len(rolling_avg)]` after convolution, `x_vals = time_c`
otherwise. -/
def xValsOf (xs timeC : List ℚ) : List ℚ :=
  if window < xs.length then timeC.take (movingAverage xs).length else timeC

/-- The minimum length over a batch of captured waveforms:
`min(len(a) for a in all_v)` in `_capture_averaged` (line 318).  The
source never evaluates this on an empty batch; the `[]` case is given the
value 0 only to make the function total. -/
def minLenOf : List (List ℚ) → ℕ
  | [] => 0
  | w :: ws => (ws.map List.length).foldl min w.length

/-- Embeds the cropping step `all_v = [a[:min_len] for a in all_v]`
(line 319). -/
def cropAll (ws : List (List ℚ)) : List (List ℚ) :=
  ws.map (fun w => w.take (minLenOf ws))

/-- Embeds the averaging of `_capture_averaged` (lines 317-322): crop all
captures to the common minimum length and take the pointwise arithmetic
mean (`np.mean(np.vstack(all_v), axis=0)`). -/
def capture_averaged (ws : List (List ℚ)) : List ℚ :=
  (List.range (minLenOf ws)).map
    (fun i => ((cropAll ws).map (fun w => w.getD i 0)).sum / (ws.length : ℚ))

/-- Mean of squared deviations (the square of numpy's `np.std`).  The
source stores `Std = sqrt` of this quantity; the square root is
irrational-valued and no claim reads the numeric value of `Std`, so the
statistic is carried as its square in the ℚ model. -/
def listVar (xs : List ℚ) : ℚ :=
  listMean (xs.map (fun x => (x - listMean xs) ^ 2))

/-- Embeds the statistics step of `process_and_display` (lines 426-431):
`np.max` and `np.min` raise `ValueError` on a zero-size array — the
too-short-input failure the design calls `InsufficientData` — modelled by
`Option`; on non-empty input the four key/value pairs are produced. -/
def computeStats (xs : List ℚ) : Option (List (String × ℚ)) :=
  match xs.max?, xs.min? with
  | some mx, some mn =>
    some [("Max", mx), ("Min", mn), ("Avg", listMean xs), ("Std", listVar xs)]
  | _, _ => none

/-- The Differential Normalizer followed by the Signal Conditioner: crop
and normalize (lines 392-411), smooth (lines 415-423), then compute the
summary statistics (lines 426-431), failing exactly where the source
raises. -/
def normalizeCondition (base read ref : List ℚ) :
    Option (List ℚ × List (String × ℚ)) :=
  let rolling := rollingOf (finalValues base read ref)
  match computeStats rolling with
  | none => none
  | some s => some (rolling, s)

/-- Embeds `np.fft.fft` as a generic discrete-Fourier-transform skeleton:
output bin `k` is the kernel-weighted sum of all input samples.  The
complex twiddle factor `exp(-2 pi i k j / N)` and the subsequent complex
modulus are abstracted into the kernel parameter, which every length
statement proved below is independent of. -/
def dft (kern : ℕ → ℕ → ℚ) (xs : List ℚ) : List ℚ :=
  (List.range xs.length).map
    (fun k => ((List.range xs.length).map (fun j => kern k j * xs.getD j 0)).sum)

/-- Embeds `np.fft.fftfreq(n, d)`: bin `k ≤ (n-1)//2` maps to `k/(d*n)`, the
remaining bins to `(k-n)/(d*n)`. -/
def fftfreqList (n : ℕ) (d : ℚ) : List ℚ :=
  (List.range n).map
    (fun k => if k ≤ (n - 1) / 2 then (k : ℚ) / (d * n) else ((k : ℚ) - n) / (d * n))

/-- Embeds the FFT step of `process_and_display` (lines 433-441).  The
sample spacing is `x_vals[1] - x_vals[0]`: on a time axis with fewer than
two points this indexing raises `IndexError` (modelled as `none`).
Otherwise the transform of the smoothed signal is taken and magnitudes
and frequencies are kept for the first `N // 2` bins. -/
def spectrum (kern : ℕ → ℕ → ℚ) (rolling xv : List ℚ) :
    Option (List ℚ × List ℚ) :=
  match xv[1]?, xv[0]? with
  | some t1, some t0 =>
    some ((fftfreqList rolling.length (t1 - t0)).take (rolling.length / 2),
          ((dft kern rolling).map (fun z => |z|)).take (rolling.length / 2))
  | _, _ => none

/-- One CSV field as written by `process_and_display`: a literal string, a
numeric value, or the empty field used to pad a short column. -/
inductive Cell where
  | str (s : String)
  | num (q : ℚ)
  | blank
deriving DecidableEq, Repr

/-- The field written for column `c` at row `i`:
`c[i] if i < len(c) else ""` (lines 462-465). -/
def cellOf (col : List ℚ) (i : ℕ) : Cell :=
  match col[i]? with
  | some q => Cell.num q
  | none => Cell.blank

/-- The data-section header row written at line 458. -/
def csvHeaderRow : List Cell :=
  [Cell.str "Time", Cell.str "Processed_Signal", Cell.str "Frequency",
   Cell.str "FFT_Magnitude"]

/-- The data rows of the CSV (lines 460-466): one row per index below
`rows = max(len(x_vals), len(fft_frq))`, each holding the time, processed,
frequency and magnitude fields padded with empty cells past the end of
their column. -/
def csvDataRows (xv pv fv mv : List ℚ) : List (List Cell) :=
  (List.range (max xv.length fv.length)).map
    (fun i => [cellOf xv i, cellOf pv i, cellOf fv i, cellOf mv i])

/-- The whole CSV written by `process_and_display` (lines 450-466), one
entry per line: the `Statistics` header, one key/value line per summary
statistic, the blank separator line and the `Data` line produced by
writing `"\nData\n"`, the column-header row, and the data rows. -/
def csvFile (stats : List (String × ℚ)) (xv pv fv mv : List ℚ) :
    List (List Cell) :=
  [[Cell.str "Statistics"]]
    ++ stats.map (fun kv => [Cell.str kv.1, Cell.num kv.2])
    ++ [[], [Cell.str "Data"]]
    ++ [csvHeaderRow]
    ++ csvDataRows xv pv fv mv

/-- Embeds the whole of `process_and_display` (lines 387-466) as far as the
persisted CSV: crop to the common length, normalize, smooth, compute the
statistics (failing on empty input), run the spectral stage (failing on a
time axis shorter than two points), and assemble the CSV lines.  The
`timeAxis` argument is the READ-phase time axis handed over by
`run_full_cycle_logic`; by construction it has the same length as the READ
waveform. -/
def process_and_display (kern : ℕ → ℕ → ℚ) (base read ref timeAxis : List ℚ) :
    Option (List (List Cell)) :=
  match computeStats (rollingOf (finalValues base read ref)) with
  | none => none
  | some stats =>
    match spectrum kern (rollingOf (finalValues base read ref))
        (xValsOf (finalValues base read ref)
          (timeAxis.take (alignLen base read ref))) with
    | none => none
    | some fm =>
      some (csvFile stats
        (xValsOf (finalValues base read ref)
          (timeAxis.take (alignLen base read ref)))
        (rollingOf (finalValues base read ref)) fm.1 fm.2)

/-- C1: the claim says every run of the full cycle ends with
`setOutput(false)` as the last issued output-enable command, even on
failure.  The code violates this: with the Keithley connected, generator
configuration and BASE capture succeeding, and READ capture failing, the
cycle raises before the step-4 cleanup line, so the issued trace is
`[false, true]` and the last command is `setOutput(true)` — the output is
left ON. -/
theorem C1_read_failure_leaves_output_on :
    run_full_cycle_keith ⟨true, true, true, false⟩ = [false, true] ∧
    (run_full_cycle_keith ⟨true, true, true, false⟩).getLast? = some true := by
  decide

/-- C9 counterexample: with a cycle in flight the run button is disabled
(the state below), and a second click is silently dropped: the state is
unchanged and, in particular, no NotReady-class warning is emitted — the
claim's "rejected with a NotReady-class signal" is false (the
"does not alter the in-flight cycle" half does hold). -/
theorem C9_counterexample :
    clickRunButton ⟨true, true, false, true, []⟩ = ⟨true, true, false, true, []⟩ ∧
    (clickRunButton ⟨true, true, false, true, []⟩).warnings = [] := by
  decide

/-- C9 (amended): while the run button is disabled — as it is for the whole
duration of a cycle — a second start request through the button is ignored
without any signal: the state, including the in-flight cycle's, is left
exactly as it was. -/
theorem C9_reentry_ignored (s : UiState) (h : s.btnEnabled = false) :
    clickRunButton s = s := by
  simp [clickRunButton, h]

/-- Witness for C9: the amended theorem applied to a concrete in-flight
state. -/
theorem C9_witness :
    clickRunButton ⟨true, true, false, true, [Warn.notConnected]⟩ =
      ⟨true, true, false, true, [Warn.notConnected]⟩ :=
  C9_reentry_ignored ⟨true, true, false, true, [Warn.notConnected]⟩ rfl

theorem getD_take_of_lt (l : List ℚ) {n i : ℕ} (h : i < n) :
    (l.take n).getD i 0 = l.getD i 0 := by
  simp [List.getD_eq_getElem?_getD, List.getElem?_take_of_lt h]

theorem length_finalValues (base read ref : List ℚ) :
    (finalValues base read ref).length = alignLen base read ref := by
  simp [finalValues]

theorem finalValues_getElem? (base read ref : List ℚ) {i : ℕ}
    (hi : i < alignLen base read ref) :
    (finalValues base read ref)[i]? =
      some ((read.getD i 0 - base.getD i 0 -
              listMean (ref.take (alignLen base read ref))) /
            denomOf (listMean (ref.take (alignLen base read ref)))) := by
  simp [finalValues, List.getElem?_range hi, List.getElem?_take_of_lt hi]

/-- C2: the normalizer truncates base, read and reference to
`n = min(len(base), len(read), len(reference))`, computes `REF_AVG` as the
mean of the truncated reference, and yields a signal of length `n` with
`value[i] = (read[i] - base[i] - REF_AVG) / (0.0045 * REF_AVG)` for every
`i < n`, whenever `REF_AVG ≠ 0`. -/
theorem C2_normalizer_formula (base read ref : List ℚ)
    (h : listMean (ref.take (alignLen base read ref)) ≠ 0) :
    (finalValues base read ref).length = alignLen base read ref ∧
    ∀ i, i < alignLen base read ref →
      (finalValues base read ref)[i]? =
        some ((read.getD i 0 - base.getD i 0 -
                listMean (ref.take (alignLen base read ref))) /
              (0.0045 * listMean (ref.take (alignLen base read ref)))) := by
  refine ⟨length_finalValues base read ref, fun i hi => ?_⟩
  rw [finalValues_getElem? base read ref hi, denomOf, if_neg]
  exact mul_ne_zero (by norm_num) h

/-- Witness for C2 at base = [0], read = [1], ref = [2]: here n = 1,
REF_AVG = 2 and the single output value is (1 - 0 - 2) / 0.009 = -1000/9. -/
theorem C2_witness :
    (finalValues [(0 : ℚ)] [(1 : ℚ)] [(2 : ℚ)])[0]? = some ((-1000 : ℚ) / 9) := by
  have h := (C2_normalizer_formula [(0 : ℚ)] [(1 : ℚ)] [(2 : ℚ)]
    (by norm_num [listMean, alignLen])).2 0 (by norm_num [alignLen])
  rw [h]
  norm_num [listMean, alignLen]

/-- C6: when `REF_AVG` is exactly zero the guard replaces the vanishing
denominator `0.0045 * REF_AVG` by the non-zero epsilon `1e-9`, so no
division by zero occurs and every output value is the well-defined
rational `(read[i] - base[i] - 0) / 1e-9`. -/
theorem C6_zero_refavg_epsilon (base read ref : List ℚ)
    (h : listMean (ref.take (alignLen base read ref)) = 0) :
    denomOf (listMean (ref.take (alignLen base read ref))) = 1e-9 ∧
    denomOf (listMean (ref.take (alignLen base read ref))) ≠ 0 ∧
    ∀ i, i < alignLen base read ref →
      (finalValues base read ref)[i]? =
        some ((read.getD i 0 - base.getD i 0 - 0) / (1e-9 : ℚ)) := by
  have hd0 : denomOf 0 = 1e-9 := by simp [denomOf]
  have hd : denomOf (listMean (ref.take (alignLen base read ref))) = 1e-9 := by
    rw [h, hd0]
  refine ⟨hd, by rw [hd]; norm_num, fun i hi => ?_⟩
  rw [finalValues_getElem? base read ref hi, h, hd0]

/-- Witness for C6 at base = [1], read = [3], ref = [0]: REF_AVG = 0, the
epsilon denominator is used, and the single output is (3 - 1) / 1e-9. -/
theorem C6_witness :
    (finalValues [(1 : ℚ)] [(3 : ℚ)] [(0 : ℚ)])[0]? =
      some (((3 : ℚ) - 1 - 0) / (1e-9 : ℚ)) := by
  have h := (C6_zero_refavg_epsilon [(1 : ℚ)] [(3 : ℚ)] [(0 : ℚ)]
    (by norm_num [listMean, alignLen])).2.2 0 (by norm_num [alignLen])
  rw [h]
  norm_num

theorem length_movingAverage (xs : List ℚ) :
    (movingAverage xs).length = xs.length - window + 1 := by
  simp [movingAverage]

/-- C7: with window `W = 256`, an input longer than 256 is smoothed to
length `len - 256 + 1` (valid convolution), and an input of length at most
256 is passed through verbatim, so its length is unchanged. -/
theorem C7_smoothing_lengths (xs : List ℚ) :
    (window < xs.length → (rollingOf xs).length = xs.length - 256 + 1) ∧
    (xs.length ≤ window → rollingOf xs = xs) := by
  constructor
  · intro h
    rw [rollingOf, if_pos h, length_movingAverage]
    rfl
  · intro h
    rw [rollingOf, if_neg (Nat.not_lt.mpr h)]

/-- Witness for C7: a 2-point signal is returned verbatim, and a 300-point
signal is smoothed to 300 - 256 + 1 points. -/
theorem C7_witness :
    rollingOf [(5 : ℚ), 7] = [(5 : ℚ), 7] ∧
    (rollingOf (List.replicate 300 (2 : ℚ))).length =
      (List.replicate 300 (2 : ℚ)).length - 256 + 1 :=
  ⟨(C7_smoothing_lengths [(5 : ℚ), 7]).2 (by decide),
   (C7_smoothing_lengths (List.replicate 300 (2 : ℚ))).1
     (by rw [List.length_replicate]; decide)⟩

theorem foldl_min_of_all_eq {L : ℕ} :
    ∀ ns : List ℕ, (∀ n ∈ ns, n = L) → ns.foldl min L = L := by
  intro ns
  induction ns with
  | nil => intro _; rfl
  | cons n ns ih =>
    intro h
    have hn : n = L := h n (List.mem_cons_self n ns)
    simp only [List.foldl_cons, hn, min_self]
    exact ih (fun m hm => h m (List.mem_cons_of_mem n hm))

theorem minLenOf_of_all_eq {L : ℕ} (ws : List (List ℚ)) (hne : ws ≠ [])
    (h : ∀ w ∈ ws, w.length = L) : minLenOf ws = L := by
  cases ws with
  | nil => exact absurd rfl hne
  | cons w ws =>
    have hw : w.length = L := h w (List.mem_cons_self w ws)
    rw [minLenOf, hw]
    exact foldl_min_of_all_eq (ws.map List.length)
      (by
        intro n hn
        obtain ⟨v, hv, rfl⟩ := List.mem_map.mp hn
        exact h v (List.mem_cons_of_mem w hv))

/-- C3: the averaged capture has length equal to the minimum input length;
each output point is the arithmetic mean, across the batch, of the
corresponding point of the inputs cropped to that minimum length; and for
a batch of equal-length inputs the output keeps the full input length. -/
theorem C3_averaging (ws : List (List ℚ)) (hne : ws ≠ []) :
    (capture_averaged ws).length = minLenOf ws ∧
    (∀ i, i < minLenOf ws →
      (capture_averaged ws)[i]? =
        some ((ws.map (fun w => (w.take (minLenOf ws)).getD i 0)).sum /
              (ws.length : ℚ))) ∧
    (∀ L, (∀ w ∈ ws, w.length = L) → (capture_averaged ws).length = L) := by
  refine ⟨by simp [capture_averaged], fun i hi => ?_, fun L hL => ?_⟩
  · simp [capture_averaged, cropAll, List.getElem?_range hi, List.map_map,
      Function.comp_def]
  · rw [show (capture_averaged ws).length = minLenOf ws by simp [capture_averaged]]
    exact minLenOf_of_all_eq ws hne hL

/-- Witness for C3: two captures [1,2,3] and [3,4] crop to length 2 and
average pointwise to [2, 3]. -/
theorem C3_witness :
    (capture_averaged [[(1 : ℚ), 2, 3], [3, 4]]).length =
      minLenOf [[(1 : ℚ), 2, 3], [3, 4]] ∧
    (capture_averaged [[(1 : ℚ), 2, 3], [3, 4]])[0]? = some 2 := by
  have h := C3_averaging [[(1 : ℚ), 2, 3], [3, 4]] (by simp)
  refine ⟨h.1, ?_⟩
  rw [h.2.1 0 (by norm_num [minLenOf])]
  norm_num [minLenOf]

theorem computeStats_eq_none_iff (xs : List ℚ) :
    computeStats xs = none ↔ xs = [] := by
  cases xs with
  | nil => simp [computeStats]
  | cons x xs =>
    constructor
    · intro h
      rcases hmx : (x :: xs).max? with _ | mx
      · exact List.max?_eq_none_iff.mp hmx
      · rcases hmn : (x :: xs).min? with _ | mn
        · exact List.min?_eq_none_iff.mp hmn
        · rw [computeStats, hmx, hmn] at h
          exact absurd h (by simp)
    · intro h
      exact absurd h (by simp)

theorem computeStats_length (xs : List ℚ) (s : List (String × ℚ))
    (h : computeStats xs = some s) : s.length = 4 := by
  rcases hmx : xs.max? with _ | mx <;> rcases hmn : xs.min? with _ | mn <;>
    rw [computeStats, hmx, hmn] at h
  · exact Option.noConfusion h
  · exact Option.noConfusion h
  · exact Option.noConfusion h
  · injection h with h
    rw [← h]
    rfl

theorem rollingOf_eq_nil_iff (xs : List ℚ) : rollingOf xs = [] ↔ xs = [] := by
  rw [rollingOf]
  by_cases h : window < xs.length
  · rw [if_pos h]
    constructor
    · intro hnil
      have := congrArg List.length hnil
      rw [length_movingAverage] at this
      simp at this
    · intro hnil
      rw [hnil] at h
      exact absurd h (by simp)
  · rw [if_neg h]

/-- C5: the normalizer-plus-conditioner stage has exactly one error path:
it fails (the too-short-input `InsufficientData` condition, raised by the
empty-array reduction in the statistics step) precisely when the common
truncated length `min(len(base), len(read), len(reference))` is zero, and
succeeds on every input of non-zero truncated length. -/
theorem C5_error_path_iff (base read ref : List ℚ) :
    normalizeCondition base read ref = none ↔ alignLen base read ref = 0 := by
  have hlen : (finalValues base read ref).length = alignLen base read ref :=
    length_finalValues base read ref
  constructor
  · intro h
    rcases hst : computeStats (rollingOf (finalValues base read ref)) with _ | s
    · have hnil := (rollingOf_eq_nil_iff _).mp (computeStats_eq_none_iff _ |>.mp hst)
      rw [← hlen, hnil]
      rfl
    · rw [normalizeCondition] at h
      simp only [hst] at h
      exact absurd h (by simp)
  · intro h
    have hnil : finalValues base read ref = [] :=
      List.length_eq_zero.mp (by rw [hlen, h])
    rw [normalizeCondition]
    have : computeStats (rollingOf (finalValues base read ref)) = none :=
      (computeStats_eq_none_iff _).mpr ((rollingOf_eq_nil_iff _).mpr hnil)
    simp only [this]

/-- Witness for C5: empty inputs have truncated length zero and the stage
signals the failure; a singleton input succeeds. -/
theorem C5_witness :
    normalizeCondition [] [] [] = none ∧
    normalizeCondition [(1 : ℚ)] [(2 : ℚ)] [(4 : ℚ)] ≠ none :=
  ⟨(C5_error_path_iff [] [] []).mpr rfl,
   fun h => by
     have := (C5_error_path_iff [(1 : ℚ)] [(2 : ℚ)] [(4 : ℚ)]).mp h
     exact absurd this (by decide)⟩

/-- C4 counterexample: the claim says that for a smoothed signal of length
N ≤ 1 the analyzer returns empty frequency and magnitude sequences rather
than failing.  On a length-1 signal (with its length-1 time axis) the code
evaluates `x_vals[1]` out of range and fails, so the stage yields `none`,
not `some ([], [])`. -/
theorem C4_counterexample :
    spectrum (fun _ _ => (1 : ℚ)) [(3 : ℚ)] [(0 : ℚ)] = none := rfl

/-- C4 (amended): for a smoothed signal of length N ≥ 2 with its matching
time axis, the spectral stage succeeds and the frequency and magnitude
sequences each have length exactly `N // 2`; for N ≤ 1 the stage fails
with an out-of-range time-axis access instead of returning empty
sequences. -/
theorem C4_spectrum_lengths (kern : ℕ → ℕ → ℚ) (rolling xv : List ℚ)
    (hlen : xv.length = rolling.length) (h2 : 2 ≤ rolling.length) :
    (spectrum kern rolling xv).isSome = true ∧
    ((spectrum kern rolling xv).getD ([], [])).1.length = rolling.length / 2 ∧
    ((spectrum kern rolling xv).getD ([], [])).2.length = rolling.length / 2 := by
  have h1 : 1 < xv.length := by omega
  have h0 : 0 < xv.length := by omega
  have ht1 : xv[1]? = some (xv.get ⟨1, h1⟩) := by
    rw [List.getElem?_eq_getElem h1, List.get_eq_getElem]
  have ht0 : xv[0]? = some (xv.get ⟨0, h0⟩) := by
    rw [List.getElem?_eq_getElem h0, List.get_eq_getElem]
  have hsp : spectrum kern rolling xv =
      some ((fftfreqList rolling.length (xv.get ⟨1, h1⟩ - xv.get ⟨0, h0⟩)).take
              (rolling.length / 2),
            ((dft kern rolling).map (fun z => |z|)).take (rolling.length / 2)) := by
    rw [spectrum, ht1, ht0]
  rw [hsp]
  refine ⟨rfl, ?_, ?_⟩
  · simp [fftfreqList, Nat.div_le_self]
  · simp [dft, Nat.div_le_self]

/-- Witness for C4: a 2-point smoothed signal with a 2-point time axis
yields one frequency bin and one magnitude bin. -/
theorem C4_witness :
    (spectrum (fun _ _ => (1 : ℚ)) [(3 : ℚ), 4] [(0 : ℚ), 1]).isSome = true ∧
    ((spectrum (fun _ _ => (1 : ℚ)) [(3 : ℚ), 4] [(0 : ℚ), 1]).getD
        ([], [])).1.length = [(3 : ℚ), 4].length / 2 ∧
    ((spectrum (fun _ _ => (1 : ℚ)) [(3 : ℚ), 4] [(0 : ℚ), 1]).getD
        ([], [])).2.length = [(3 : ℚ), 4].length / 2 :=
  C4_spectrum_lengths (fun _ _ => (1 : ℚ)) [(3 : ℚ), 4] [(0 : ℚ), 1] rfl
    (by decide)

theorem cellOf_blank_iff (col : List ℚ) (i : ℕ) :
    cellOf col i = Cell.blank ↔ col.length ≤ i := by
  rcases h : col[i]? with _ | q
  · have hlen := List.getElem?_eq_none_iff.mp h
    simp [cellOf, h, hlen]
  · have hlen : ¬ col.length ≤ i := by
      intro hc
      rw [List.getElem?_eq_none hc] at h
      exact Option.noConfusion h
    simp [cellOf, h, hlen]

theorem cellOf_of_lt (col : List ℚ) {i : ℕ} (h : i < col.length) :
    cellOf col i = Cell.num (col.getD i 0) := by
  rw [cellOf, List.getElem?_eq_getElem h]
  simp [List.getD_eq_getElem?_getD, List.getElem?_eq_getElem h]

theorem length_csvFile (stats : List (String × ℚ)) (xv pv fv mv : List ℚ) :
    (csvFile stats xv pv fv mv).length =
      stats.length + 4 + max xv.length fv.length := by
  simp [csvFile, csvDataRows] <;> omega

theorem csvFile_getElem?_data (stats : List (String × ℚ)) (xv pv fv mv : List ℚ)
    (i : ℕ) :
    (csvFile stats xv pv fv mv)[stats.length + 4 + i]? =
      (csvDataRows xv pv fv mv)[i]? := by
  rw [csvFile, List.getElem?_append_right (by simp [csvHeaderRow] <;> omega)]
  congr 1
  simp [csvHeaderRow] <;> omega

theorem csvFile_getElem?_header (stats : List (String × ℚ)) (xv pv fv mv : List ℚ) :
    (csvFile stats xv pv fv mv)[stats.length + 3]? = some csvHeaderRow := by
  rw [csvFile, List.getElem?_append_left (by simp [csvHeaderRow] <;> omega),
    @List.getElem?_append_right (List Cell) _ [csvHeaderRow] _ (by simp <;> omega)]
  have h3 : stats.length + 3 - ([[Cell.str "Statistics"]]
      ++ stats.map (fun kv => [Cell.str kv.1, Cell.num kv.2])
      ++ [[], [Cell.str "Data"]]).length = 0 := by
    simp <;> omega
  rw [h3]
  rfl

theorem csvFile_getElem?_stat (stats : List (String × ℚ)) (xv pv fv mv : List ℚ)
    {j : ℕ} (hj : j < stats.length) :
    (csvFile stats xv pv fv mv)[1 + j]? =
      some [Cell.str (stats.getD j ("", 0)).1, Cell.num (stats.getD j ("", 0)).2] := by
  rw [csvFile, List.getElem?_append_left (by simp [csvHeaderRow] <;> omega),
    List.getElem?_append_left (by simp <;> omega),
    List.getElem?_append_left (by simp <;> omega),
    @List.getElem?_append_right (List Cell) [[Cell.str "Statistics"]] _ _ (by simp <;> omega)]
  have h1 : 1 + j - ([[Cell.str "Statistics"]] : List (List Cell)).length = j := by
    simp <;> omega
  rw [h1, List.getElem?_map, List.getElem?_eq_getElem hj]
  simp [List.getElem?_eq_getElem hj]

/-- C8: the persisted CSV opens with a `Statistics` line followed by one
key/value line per summary statistic; then (after the blank separator and
`Data` marker written by the source) the data section opens with exactly
the header row `Time,Processed_Signal,Frequency,FFT_Magnitude` and holds
one row per index below `max(len(x_vals), len(fft_frq))`, each row
carrying the four column fields, with a column's field rendered empty
precisely when that column is shorter than the row index requires. -/
theorem C8_csv_layout (stats : List (String × ℚ)) (xv pv fv mv : List ℚ) :
    (csvFile stats xv pv fv mv)[0]? = some [Cell.str "Statistics"] ∧
    (∀ j, j < stats.length →
      (csvFile stats xv pv fv mv)[1 + j]? =
        some [Cell.str (stats.getD j ("", 0)).1,
              Cell.num (stats.getD j ("", 0)).2]) ∧
    (csvFile stats xv pv fv mv)[stats.length + 3]? =
      some [Cell.str "Time", Cell.str "Processed_Signal", Cell.str "Frequency",
            Cell.str "FFT_Magnitude"] ∧
    (csvFile stats xv pv fv mv).length =
      stats.length + 4 + max xv.length fv.length ∧
    (∀ i, i < max xv.length fv.length →
      (csvFile stats xv pv fv mv)[stats.length + 4 + i]? =
        some [cellOf xv i, cellOf pv i, cellOf fv i, cellOf mv i]) ∧
    (∀ col : List ℚ, ∀ i, cellOf col i = Cell.blank ↔ col.length ≤ i) := by
  refine ⟨by simp [csvFile], fun j hj => csvFile_getElem?_stat stats xv pv fv mv hj,
    csvFile_getElem?_header stats xv pv fv mv,
    length_csvFile stats xv pv fv mv, fun i hi => ?_, cellOf_blank_iff⟩
  rw [csvFile_getElem?_data stats xv pv fv mv i, csvDataRows,
    List.getElem?_map, List.getElem?_range hi]
  rfl

/-- Witness for C8 on concrete columns of lengths 2, 2, 1, 1 with one
statistic: five data rows would overrun, so there are exactly
1 + 4 + 2 lines, and in data row 1 the frequency field is empty while the
time field is not. -/
theorem C8_witness :
    (csvFile [("Max", (3 : ℚ))] [(0 : ℚ), 1] [(5 : ℚ), 6] [(7 : ℚ)] [(8 : ℚ)]).length =
      1 + 4 + 2 ∧
    (csvFile [("Max", (3 : ℚ))] [(0 : ℚ), 1] [(5 : ℚ), 6] [(7 : ℚ)] [(8 : ℚ)])[1 + 4 + 1]? =
      some [cellOf [(0 : ℚ), 1] 1, cellOf [(5 : ℚ), 6] 1, cellOf [(7 : ℚ)] 1,
            cellOf [(8 : ℚ)] 1] ∧
    (cellOf [(7 : ℚ)] 1 = Cell.blank ↔ [(7 : ℚ)].length ≤ 1) := by
  have h := C8_csv_layout [("Max", (3 : ℚ))] [(0 : ℚ), 1] [(5 : ℚ), 6] [(7 : ℚ)] [(8 : ℚ)]
  exact ⟨h.2.2.2.1, h.2.2.2.2.1 1 (by decide), h.2.2.2.2.2 [(7 : ℚ)] 1⟩

theorem length_xValsOf (xs timeC : List ℚ) (h : timeC.length = xs.length) :
    (xValsOf xs timeC).length = (rollingOf xs).length := by
  rw [xValsOf, rollingOf]
  have hww : window = 256 := rfl
  by_cases hw : window < xs.length
  · rw [if_pos hw, if_pos hw, List.length_take, length_movingAverage, h]
    omega
  · rw [if_neg hw, if_neg hw, h]

theorem spectrum_lengths_of_some (kern : ℕ → ℕ → ℚ) (rolling xv : List ℚ)
    (fm : List ℚ × List ℚ) (h : spectrum kern rolling xv = some fm) :
    fm.1.length = rolling.length / 2 ∧ fm.2.length = rolling.length / 2 := by
  rcases h1 : xv[1]? with _ | t1
  · rw [spectrum, h1] at h
    exact Option.noConfusion h
  · rcases h0 : xv[0]? with _ | t0
    · rw [spectrum, h1, h0] at h
      exact Option.noConfusion h
    · rw [spectrum, h1, h0] at h
      injection h with h
      rw [← h]
      constructor
      · simp [fftfreqList, Nat.div_le_self]
      · simp [dft, Nat.div_le_self]

theorem take_length_of_le (timeAxis : List ℚ) {n : ℕ} (h : n ≤ timeAxis.length) :
    (timeAxis.take n).length = n := by
  rw [List.length_take]
  omega

theorem process_isSome_of (kern : ℕ → ℕ → ℚ) (base read ref timeAxis : List ℚ)
    (ht : timeAxis.length = read.length) (h2 : 2 ≤ alignLen base read ref)
    (h256 : alignLen base read ref ≤ window) :
    (process_and_display kern base read ref timeAxis).isSome = true := by
  have hfl : (finalValues base read ref).length = alignLen base read ref :=
    length_finalValues base read ref
  have hroll : rollingOf (finalValues base read ref) = finalValues base read ref := by
    rw [rollingOf, if_neg (by omega)]
  have hnle : alignLen base read ref ≤ timeAxis.length := by
    rw [ht]
    simp [alignLen]
  have hxv : xValsOf (finalValues base read ref)
      (timeAxis.take (alignLen base read ref)) =
      timeAxis.take (alignLen base read ref) := by
    rw [xValsOf, if_neg (by omega)]
  have hst : computeStats (rollingOf (finalValues base read ref)) ≠ none := by
    intro hc
    rw [computeStats_eq_none_iff, hroll] at hc
    rw [hc] at hfl
    simp at hfl
    omega
  rcases hst' : computeStats (rollingOf (finalValues base read ref)) with _ | stats
  · exact absurd hst' hst
  have h1lt : 1 < (timeAxis.take (alignLen base read ref)).length := by
    rw [take_length_of_le timeAxis hnle]
    omega
  have hsp : spectrum kern (rollingOf (finalValues base read ref))
      (xValsOf (finalValues base read ref)
        (timeAxis.take (alignLen base read ref))) ≠ none := by
    rw [hxv, spectrum, List.getElem?_eq_getElem h1lt,
      List.getElem?_eq_getElem (by omega : 0 < (timeAxis.take (alignLen base read ref)).length)]
    intro hcon
    exact Option.noConfusion hcon
  rcases hsp' : spectrum kern (rollingOf (finalValues base read ref))
      (xValsOf (finalValues base read ref)
        (timeAxis.take (alignLen base read ref))) with _ | fm
  · exact absurd hsp' hsp
  rw [process_and_display]
  simp only [hst', hsp']
  rfl

/-- C10: whenever `process_and_display` writes a CSV, the data section has
exactly one row per point of the smoothed signal (the CSV is 8 lines of
statistics and headers plus N data rows), every data row holds four
fields whose Time and Processed_Signal fields are numeric (never empty),
and the Frequency and FFT_Magnitude fields are empty exactly for row
indices at or past `N // 2` — only the spectrum columns are ever padded,
because the retained spectrum length `N // 2` never exceeds `N`. -/
theorem C10_csv_rows (kern : ℕ → ℕ → ℚ) (base read ref timeAxis : List ℚ)
    (ht : timeAxis.length = read.length)
    (hs : (process_and_display kern base read ref timeAxis).isSome = true) :
    ((process_and_display kern base read ref timeAxis).getD []).length =
      8 + (rollingOf (finalValues base read ref)).length ∧
    ∀ i, i < (rollingOf (finalValues base read ref)).length →
      ∃ row, ((process_and_display kern base read ref timeAxis).getD [])[8 + i]? =
          some row ∧
        row.length = 4 ∧
        (∃ q, row[0]? = some (Cell.num q)) ∧
        (∃ p, row[1]? = some (Cell.num p)) ∧
        (row[2]? = some Cell.blank ↔
          (rollingOf (finalValues base read ref)).length / 2 ≤ i) ∧
        (row[3]? = some Cell.blank ↔
          (rollingOf (finalValues base read ref)).length / 2 ≤ i) := by
  have hnle : alignLen base read ref ≤ timeAxis.length := by
    rw [ht]
    simp [alignLen]
  have htc : (timeAxis.take (alignLen base read ref)).length =
      (finalValues base read ref).length := by
    rw [take_length_of_le timeAxis hnle, length_finalValues]
  have hxvlen : (xValsOf (finalValues base read ref)
      (timeAxis.take (alignLen base read ref))).length =
      (rollingOf (finalValues base read ref)).length :=
    length_xValsOf _ _ htc
  rcases hst : computeStats (rollingOf (finalValues base read ref)) with _ | stats
  · rw [process_and_display] at hs
    simp only [hst] at hs
    exact absurd hs (by simp)
  rcases hsp : spectrum kern (rollingOf (finalValues base read ref))
      (xValsOf (finalValues base read ref)
        (timeAxis.take (alignLen base read ref))) with _ | fm
  · rw [process_and_display] at hs
    simp only [hst, hsp] at hs
    exact absurd hs (by simp)
  have hpd : process_and_display kern base read ref timeAxis =
      some (csvFile stats
        (xValsOf (finalValues base read ref)
          (timeAxis.take (alignLen base read ref)))
        (rollingOf (finalValues base read ref)) fm.1 fm.2) := by
    rw [process_and_display]
    simp only [hst, hsp]
  have hstats4 : stats.length = 4 := computeStats_length _ _ hst
  have hfm := spectrum_lengths_of_some kern _ _ fm hsp
  have hmax : max (xValsOf (finalValues base read ref)
      (timeAxis.take (alignLen base read ref))).length fm.1.length =
      (rollingOf (finalValues base read ref)).length := by
    rw [hxvlen, hfm.1]
    omega
  rw [hpd]
  constructor
  · rw [Option.getD_some, length_csvFile, hstats4, hmax]
  · intro i hi
    refine ⟨[cellOf (xValsOf (finalValues base read ref)
        (timeAxis.take (alignLen base read ref))) i,
      cellOf (rollingOf (finalValues base read ref)) i,
      cellOf fm.1 i, cellOf fm.2 i], ?_, rfl, ?_, ?_, ?_, ?_⟩
    · rw [Option.getD_some,
        show 8 + i = stats.length + 4 + i by omega,
        csvFile_getElem?_data, csvDataRows, List.getElem?_map,
        List.getElem?_range (by rw [hmax]; exact hi)]
      rfl
    · refine ⟨(xValsOf (finalValues base read ref)
        (timeAxis.take (alignLen base read ref))).getD i 0, ?_⟩
      rw [show ([cellOf (xValsOf (finalValues base read ref)
          (timeAxis.take (alignLen base read ref))) i,
        cellOf (rollingOf (finalValues base read ref)) i,
        cellOf fm.1 i, cellOf fm.2 i])[0]? =
          some (cellOf (xValsOf (finalValues base read ref)
            (timeAxis.take (alignLen base read ref))) i) from rfl,
        cellOf_of_lt _ (by rw [hxvlen]; exact hi)]
    · refine ⟨(rollingOf (finalValues base read ref)).getD i 0, ?_⟩
      rw [show ([cellOf (xValsOf (finalValues base read ref)
          (timeAxis.take (alignLen base read ref))) i,
        cellOf (rollingOf (finalValues base read ref)) i,
        cellOf fm.1 i, cellOf fm.2 i])[1]? =
          some (cellOf (rollingOf (finalValues base read ref)) i) from rfl,
        cellOf_of_lt _ hi]
    · rw [show ([cellOf (xValsOf (finalValues base read ref)
          (timeAxis.take (alignLen base read ref))) i,
        cellOf (rollingOf (finalValues base read ref)) i,
        cellOf fm.1 i, cellOf fm.2 i])[2]? = some (cellOf fm.1 i) from rfl]
      rw [Option.some_inj]
      rw [cellOf_blank_iff, hfm.1]
    · rw [show ([cellOf (xValsOf (finalValues base read ref)
          (timeAxis.take (alignLen base read ref))) i,
        cellOf (rollingOf (finalValues base read ref)) i,
        cellOf fm.1 i, cellOf fm.2 i])[3]? = some (cellOf fm.2 i) from rfl]
      rw [Option.some_inj]
      rw [cellOf_blank_iff, hfm.2]

/-- Witness for C10 on base = read = ref = timeAxis = [0, 1]: the pipeline
succeeds (n = 2 ≤ 256, so the smoothed signal is the 2-point normalized
signal) and the CSV has 8 + 2 lines. -/
theorem C10_witness :
    ((process_and_display (fun _ _ => (1 : ℚ)) [(0 : ℚ), 1] [(0 : ℚ), 1] [(0 : ℚ), 1]
        [(0 : ℚ), 1]).getD []).length =
      8 + (rollingOf (finalValues [(0 : ℚ), 1] [(0 : ℚ), 1] [(0 : ℚ), 1])).length :=
  (C10_csv_rows (fun _ _ => (1 : ℚ)) [(0 : ℚ), 1] [(0 : ℚ), 1] [(0 : ℚ), 1] [(0 : ℚ), 1]
    rfl (process_isSome_of (fun _ _ => (1 : ℚ)) [(0 : ℚ), 1] [(0 : ℚ), 1] [(0 : ℚ), 1]
      [(0 : ℚ), 1] rfl (by decide) (by decide))).1

end Thermify
